import Mathlib

/-
Verification of the goapi user-cache / rate-limiter core.

This file gives a shallow embedding, in Lean 4, of the cache-aside and
rate-limiting core of the goapi repository:

  * `models.User` and its JSON image under `encoding/json`
    (models/index.go; the PassHash field is tagged json:"-" and is
    therefore omitted from the serialized form);
  * the Redis-backed `cache.Cache` implementation `redisCache`
    (models/index.go, second document): the Redis keyspace is modelled as
    an association list from key strings to stored values, where a stored
    value is either a plain string, the JSON serialization of a user, or
    an integer counter (Redis stores all of these as strings; the
    constructors record what the stored bytes denote);
  * the no-op `cache.Cache` implementation `noOpCache`;
  * the GORM-backed `repositories.userRepository`; the relational store
    underneath it is external to the core and is modelled as a list of
    user rows;
  * the `services.userService` cache-aside orchestrator;
  * the in-memory token-bucket `middleware.RateLimiter`, the distributed
    `middleware.RedisRateLimiter`, and the strategy-selection probe in
    `middleware.RateLimitMiddlewareWithCache`.

Time is measured in integer nanoseconds.  TTL arguments are carried but
expiry itself is performed by the Redis backend, not by application code,
and is outside the embedding.  The token-bucket refill in Go computes
`int(elapsed.Minutes() * float64(requestsPerMinute))`; the embedding
computes the same quantity exactly over the integers as
`Int.tdiv (elapsedNs * requestsPerMinute) 60000000000` (truncation toward
zero, as Go's float-to-int conversion does).
-/

/-- Go struct `models.User` (models/index.go). -/
structure User where
  id        : Int
  firstName : String
  lastName  : String
  email     : String
  passHash  : String
  phoneNum  : String
  role      : String
  createdAt : Int
  updatedAt : Int
deriving DecidableEq, Repr

/-- The JSON image of a `User` under `encoding/json`.  Field names follow
the struct tags in models/index.go.  `PassHash` is tagged `json:"-"` and
is excluded from the serialization. -/
structure UserJSON where
  user_id      : Int
  first_name   : String
  last_name    : String
  email        : String
  phone_number : String
  role         : String
  created_at   : Int
  updated_at   : Int
deriving DecidableEq, Repr

/-- `json.Marshal` on a `models.User`: every field except `PassHash`. -/
def marshalUser (u : User) : UserJSON :=
  { user_id      := u.id
    first_name   := u.firstName
    last_name    := u.lastName
    email        := u.email
    phone_number := u.phoneNum
    role         := u.role
    created_at   := u.createdAt
    updated_at   := u.updatedAt }

/-- `json.Unmarshal` of a serialized user into a fresh `models.User`:
`PassHash` has no JSON key, so it keeps the zero value `""`. -/
def unmarshalUser (j : UserJSON) : User :=
  { id        := j.user_id
    firstName := j.first_name
    lastName  := j.last_name
    email     := j.email
    passHash  := ""
    phoneNum  := j.phone_number
    role      := j.role
    createdAt := j.created_at
    updatedAt := j.updated_at }

/-- A user as it comes back from the cache: the JSON round trip erases
the password hash and keeps every other field. -/
def eraseHash (u : User) : User :=
  { u with passHash := "" }

/-- Errors surfaced by cache operations.  `miss` is `cache.ErrCacheMiss`
(redis.Nil); `decodeFail` is a json.Unmarshal / WRONGTYPE-style failure on
the stored value; `backend` is a connection-level failure, used when
modelling an unreachable backend. -/
inductive CacheErr where
  | miss
  | decodeFail
  | backend
deriving DecidableEq, Repr

/-- What the bytes stored under a Redis key denote: a plain string, the
JSON serialization of a user, or an integer counter. -/
inductive RVal where
  | str  (s : String)
  | user (j : UserJSON)
  | int  (n : Int)
deriving DecidableEq, Repr

/-- The Redis keyspace: an association list from keys to stored values
(most recent binding first; `rstore` removes any previous binding). -/
abbrev RedisState := List (String × RVal)

/-- Look a key up in the keyspace. -/
def rlookup (st : RedisState) (k : String) : Option RVal :=
  (st.find? (fun p => p.1 == k)).map (·.2)

/-- Store a value under a key, replacing any previous binding (SET). -/
def rstore (st : RedisState) (k : String) (v : RVal) : RedisState :=
  (k, v) :: st.filter (fun p => p.1 ≠ k)

/-- Remove a key (DEL; idempotent). -/
def rremove (st : RedisState) (k : String) : RedisState :=
  st.filter (fun p => p.1 ≠ k)

/-- Key pattern `user:id:%d` (redisCache.GetUserByID et al.). -/
def userIDKey (id : Int) : String := "user:id:" ++ toString id

/-- Key pattern `user:email:%s`.  The email is used exactly as given;
no normalization is applied at the cache layer. -/
def userEmailKey (email : String) : String := "user:email:" ++ email

/-- Key pattern `ratelimit:%s`. -/
def rateLimitKey (key : String) : String := "ratelimit:" ++ key

/-- redisCache.GetUserByID: GET the id key; redis.Nil becomes
`ErrCacheMiss`; a value that does not decode as a user is an error (and
never a hit). -/
def redisCache.GetUserByID (st : RedisState) (id : Int) : Except CacheErr User :=
  match rlookup st (userIDKey id) with
  | none => .error .miss
  | some (.user j) => .ok (unmarshalUser j)
  | some _ => .error .decodeFail

/-- redisCache.SetUserByID: marshal the user and SET it under the id key
with the supplied TTL (expiry is enforced by the backend and not
modelled). -/
def redisCache.SetUserByID (st : RedisState) (id : Int) (u : User) (_ttl : Nat) : RedisState :=
  rstore st (userIDKey id) (.user (marshalUser u))

/-- redisCache.GetUserByEmail: GET the email key, formed from the email
string exactly as given. -/
def redisCache.GetUserByEmail (st : RedisState) (email : String) : Except CacheErr User :=
  match rlookup st (userEmailKey email) with
  | none => .error .miss
  | some (.user j) => .ok (unmarshalUser j)
  | some _ => .error .decodeFail

/-- redisCache.SetUserByEmail: marshal the user and SET it under the
email key, formed from the email string exactly as given. -/
def redisCache.SetUserByEmail (st : RedisState) (email : String) (u : User) (_ttl : Nat) : RedisState :=
  rstore st (userEmailKey email) (.user (marshalUser u))

/-- redisCache.DeleteUserByID. -/
def redisCache.DeleteUserByID (st : RedisState) (id : Int) : RedisState :=
  rremove st (userIDKey id)

/-- redisCache.DeleteUserByEmail. -/
def redisCache.DeleteUserByEmail (st : RedisState) (email : String) : RedisState :=
  rremove st (userEmailKey email)

/-- redisCache.DeleteUser: one DEL of both the id key and the email key. -/
def redisCache.DeleteUser (st : RedisState) (id : Int) (email : String) : RedisState :=
  rremove (rremove st (userIDKey id)) (userEmailKey email)

/-- redisCache.IncrementRateLimit: INCR of `ratelimit:<key>`, creating the
counter at 1 if absent and arming the window TTL on first increment (the
TTL is enforced by the backend and not modelled); INCR of a key whose
value is not an integer fails. -/
def redisCache.IncrementRateLimit (st : RedisState) (key : String) (_window : Nat) :
    (Except CacheErr Int) × RedisState :=
  match rlookup st (rateLimitKey key) with
  | none => (.ok 1, rstore st (rateLimitKey key) (.int 1))
  | some (.int n) => (.ok (n + 1), rstore st (rateLimitKey key) (.int (n + 1)))
  | some _ => (.error .decodeFail, st)

/-- The textual form Redis returns for a stored value: counters are
stored as decimal strings, users as their JSON text. -/
def rvalText : RVal → String
  | .str s => s
  | .int n => toString n
  | .user j =>
      "\x7b\"user_id\":" ++ toString j.user_id ++
      ",\"first_name\":\"" ++ j.first_name ++
      "\",\"last_name\":\"" ++ j.last_name ++
      "\",\"email\":\"" ++ j.email ++
      "\",\"phone_number\":\"" ++ j.phone_number ++
      "\",\"role\":\"" ++ j.role ++
      "\",\"created_at\":" ++ toString j.created_at ++
      ",\"updated_at\":" ++ toString j.updated_at ++ "\x7d"

/-- redisCache.Get (generic GET): redis.Nil becomes `ErrCacheMiss`. -/
def redisCache.Get (st : RedisState) (key : String) : Except CacheErr String :=
  match rlookup st key with
  | none => .error .miss
  | some v => .ok (rvalText v)

/-- redisCache.Set (generic SET with TTL). -/
def redisCache.Set (st : RedisState) (key value : String) (_ttl : Nat) : RedisState :=
  rstore st key (.str value)

/-- redisCache.Delete (generic DEL). -/
def redisCache.Delete (st : RedisState) (key : String) : RedisState :=
  rremove st key

/-- redisCache.Exists: EXISTS count > 0. -/
def redisCache.Exists (st : RedisState) (key : String) : Bool :=
  (rlookup st key).isSome

/-- redisCache.Ping: the live backend answers. -/
def redisCache.Ping (_st : RedisState) : Option CacheErr := none

/-- noOpCache.GetUserByID: always a cache miss (part_007). -/
def noOpCache.GetUserByID (_id : Int) : Except CacheErr User := .error .miss

/-- noOpCache.SetUserByID: succeeds, no effect. -/
def noOpCache.SetUserByID (_id : Int) (_u : User) (_ttl : Nat) : Option CacheErr := none

/-- noOpCache.GetUserByEmail: always a cache miss. -/
def noOpCache.GetUserByEmail (_email : String) : Except CacheErr User := .error .miss

/-- noOpCache.SetUserByEmail: succeeds, no effect. -/
def noOpCache.SetUserByEmail (_email : String) (_u : User) (_ttl : Nat) : Option CacheErr := none

/-- noOpCache.DeleteUserByID: succeeds, no effect. -/
def noOpCache.DeleteUserByID (_id : Int) : Option CacheErr := none

/-- noOpCache.DeleteUserByEmail: succeeds, no effect. -/
def noOpCache.DeleteUserByEmail (_email : String) : Option CacheErr := none

/-- noOpCache.DeleteUser: succeeds, no effect. -/
def noOpCache.DeleteUser (_id : Int) (_email : String) : Option CacheErr := none

/-- noOpCache.IncrementRateLimit: always returns 0 with a nil error. -/
def noOpCache.IncrementRateLimit (_key : String) (_window : Nat) : Except CacheErr Int := .ok 0

/-- noOpCache.Get: always a cache miss. -/
def noOpCache.Get (_key : String) : Except CacheErr String := .error .miss

/-- noOpCache.Set: succeeds, no effect. -/
def noOpCache.Set (_key _value : String) (_ttl : Nat) : Option CacheErr := none

/-- noOpCache.Delete: succeeds, no effect. -/
def noOpCache.Delete (_key : String) : Option CacheErr := none

/-- noOpCache.Exists: always false. -/
def noOpCache.Exists (_key : String) : Bool := false

/-- noOpCache.Ping: always succeeds. -/
def noOpCache.Ping : Option CacheErr := none

/-- Lowercasing of one character, as unicode.ToLower acts on the ASCII
range (emails in this system are ASCII; the embedding models the ASCII
case fold). -/
def lowerChar (c : Char) : Char :=
  if 'A' ≤ c ∧ c ≤ 'Z' then Char.ofNat (c.toNat + 32) else c

/-- strings.ToLower (and SQL LOWER), modelled characterwise. -/
def lowerString (s : String) : String :=
  ⟨s.data.map lowerChar⟩

/-- strings.TrimSpace: drop whitespace from both ends, modelled on the
character list. -/
def trimString (s : String) : String :=
  ⟨((s.data.dropWhile Char.isWhitespace).reverse.dropWhile
      Char.isWhitespace).reverse⟩

/-- repositories.normalizeEmail: trim surrounding whitespace, then
lowercase (part_002). -/
def normalizeEmail (email : String) : String :=
  lowerString (trimString email)

/-- The authoritative relational store, external to the core, modelled as
the list of user rows GORM operates on. -/
abbrev DB := List User

/-- repo.FindByID: first row with the given primary key. -/
def repo.FindByID (db : DB) (id : Int) : Option User :=
  db.find? (fun u => u.id == id)

/-- repo.FindByEmail: normalize the argument, then match rows with
`LOWER(email) = LOWER(?)`. -/
def repo.FindByEmail (db : DB) (email : String) : Option User :=
  db.find? (fun u => lowerString u.email == lowerString (normalizeEmail email))

/-- repo.ExistsByEmail: normalize the argument, then count rows with
`LOWER(email) = LOWER(?)`. -/
def repo.ExistsByEmail (db : DB) (email : String) : Bool :=
  db.any (fun u => lowerString u.email == lowerString (normalizeEmail email))

/-- The primary key GORM assigns on insert, modelled as one past the
largest id in the table. -/
def nextID (db : DB) : Int :=
  (db.map User.id).foldr max 0 + 1

/-- repo.Create: normalize the email on the passed record (the Go code
mutates the caller's record through the pointer), let the store assign
the primary key, and insert.  Returns the record as mutated. -/
def repo.Create (db : DB) (u : User) : User × DB :=
  let u' := { u with email := normalizeEmail u.email, id := nextID db }
  (u', db ++ [u'])

/-- repo.Update: normalize the email on the passed record (again mutating
the caller's record) and update the row with the same primary key.
Returns the record as mutated. -/
def repo.Update (db : DB) (u : User) : User × DB :=
  let u' := { u with email := normalizeEmail u.email }
  (u', db.map (fun v => if v.id == u'.id then u' else v))

/-- repo.Delete: delete by primary key; zero rows affected is
`ErrUserNotFound`. -/
def repo.Delete (db : DB) (id : Int) : Except Unit DB :=
  if db.any (fun u => u.id == id) then
    .ok (db.filter (fun u => u.id ≠ id))
  else
    .error ()

/-- Service-level errors (services/errors.go). -/
inductive SvcErr where
  | userNotFound
  | emailExists
  | invalidRole
  | passwordHashing
  | noFieldsToUpdate
deriving DecidableEq, Repr

/-- services.ValidRoles = \x7b"user", "admin"\x7d and services.IsValidRole
(part_004). -/
def IsValidRole (role : String) : Bool :=
  role == "user" || role == "admin"

/-- services.CreateUserInput. -/
structure CreateUserInput where
  firstName : String
  lastName  : String
  email     : String
  password  : String
  phoneNum  : String
  role      : String
deriving DecidableEq, Repr

/-- services.UpdateUserInput: optional fields, nil meaning "not
provided". -/
structure UpdateUserInput where
  firstName : Option String
  lastName  : Option String
  email     : Option String
  password  : Option String
  phoneNum  : Option String
  role      : Option String
deriving DecidableEq, Repr

/-- The state a userService call threads: the authoritative store and the
Redis keyspace. -/
structure SvcState where
  db    : DB
  cache : RedisState
deriving DecidableEq, Repr

/-- cache.UserCacheTTL = 15 minutes, in nanoseconds (part_014). -/
def UserCacheTTL : Nat := 900000000000

/-- cache.RateLimitWindow = 1 minute, in nanoseconds (part_014). -/
def RateLimitWindow : Nat := 60000000000

/-- userService.CreateUser (part_022).  `hash` stands for the external
bcrypt wrapper middleware.HashPassword, an injected black box. -/
def userService.CreateUser (hash : String → String) (st : SvcState)
    (input : CreateUserInput) : (Except SvcErr User) × SvcState :=
  if input.role ≠ "" ∧ ¬ IsValidRole input.role then
    (.error .invalidRole, st)
  else
    let role := if input.role = "" then "user" else input.role
    if repo.ExistsByEmail st.db input.email then
      (.error .emailExists, st)
    else
      let user : User :=
        { id := 0
          firstName := input.firstName
          lastName := input.lastName
          email := input.email
          passHash := hash input.password
          phoneNum := input.phoneNum
          role := role
          createdAt := 0
          updatedAt := 0 }
      let (u', db') := repo.Create st.db user
      let c1 := redisCache.SetUserByID st.cache u'.id u' UserCacheTTL
      let c2 := redisCache.SetUserByEmail c1 u'.email u' UserCacheTTL
      (.ok u', { db := db', cache := c2 })

/-- userService.GetUserByID (part_022): cache-aside read.  On a cache
hit return immediately; on miss or cache error fall back to the store
and best-effort populate both keys. -/
def userService.GetUserByID (st : SvcState) (id : Int) :
    (Except SvcErr User) × SvcState :=
  match redisCache.GetUserByID st.cache id with
  | .ok u => (.ok u, st)
  | .error _ =>
    match repo.FindByID st.db id with
    | none => (.error .userNotFound, st)
    | some u =>
      let c1 := redisCache.SetUserByID st.cache id u UserCacheTTL
      let c2 := redisCache.SetUserByEmail c1 u.email u UserCacheTTL
      (.ok u, { st with cache := c2 })

/-- userService.GetUserByEmail (part_022): cache-aside read by email.
On miss the repopulation keys the email entry by the *requested* email
string and the id entry by the fetched record's id. -/
def userService.GetUserByEmail (st : SvcState) (email : String) :
    (Except SvcErr User) × SvcState :=
  match redisCache.GetUserByEmail st.cache email with
  | .ok u => (.ok u, st)
  | .error _ =>
    match repo.FindByEmail st.db email with
    | none => (.error .userNotFound, st)
    | some u =>
      let c1 := redisCache.SetUserByEmail st.cache email u UserCacheTTL
      let c2 := redisCache.SetUserByID c1 u.id u UserCacheTTL
      (.ok u, { st with cache := c2 })

/-- userService.UpdateUser (part_022): fetch a fresh copy from the
authoritative store, apply field changes (with the normalized-email
comparison and uniqueness check), persist, then invalidate and
repopulate the cache, deleting the old email key and the id key when the
email changed. -/
def userService.UpdateUser (hash : String → String) (st : SvcState) (id : Int)
    (input : UpdateUserInput) : (Except SvcErr User) × SvcState :=
  match repo.FindByID st.db id with
  | none => (.error .userNotFound, st)
  | some u0 =>
    let oldEmail := u0.email
    if input.firstName = none ∧ input.lastName = none ∧ input.email = none ∧
        input.password = none ∧ input.phoneNum = none ∧ input.role = none then
      (.error .noFieldsToUpdate, st)
    else
      let u1 := { u0 with
        firstName := input.firstName.getD u0.firstName
        lastName  := input.lastName.getD u0.lastName
        phoneNum  := input.phoneNum.getD u0.phoneNum }
      let emailStep : Except SvcErr User :=
        match input.email with
        | none => .ok u1
        | some e =>
          if normalizeEmail e ≠ normalizeEmail u1.email then
            if repo.ExistsByEmail st.db e then .error .emailExists
            else .ok { u1 with email := e }
          else .ok u1
      match emailStep with
      | .error err => (.error err, st)
      | .ok u2 =>
        let roleStep : Except SvcErr User :=
          match input.role with
          | none => .ok u2
          | some r => if IsValidRole r then .ok { u2 with role := r } else .error .invalidRole
        match roleStep with
        | .error err => (.error err, st)
        | .ok u3 =>
          let u4 :=
            match input.password with
            | none => u3
            | some p => { u3 with passHash := hash p }
          let (u5, db') := repo.Update st.db u4
          let c2 :=
            if input.email ≠ none ∧ input.email ≠ some oldEmail then
              redisCache.DeleteUserByID
                (redisCache.DeleteUserByEmail st.cache oldEmail) id
            else
              redisCache.DeleteUser st.cache id u5.email
          let c3 := redisCache.SetUserByID c2 u5.id u5 UserCacheTTL
          let c4 := redisCache.SetUserByEmail c3 u5.email u5 UserCacheTTL
          (.ok u5, { db := db', cache := c4 })

/-- userService.DeleteUser (part_022): fetch the record to learn its
email, delete from the authoritative store, then delete both cache keys.
A missing record returns not-found without touching the cache. -/
def userService.DeleteUser (st : SvcState) (id : Int) :
    Option SvcErr × SvcState :=
  match repo.FindByID st.db id with
  | none => (some .userNotFound, st)
  | some u =>
    match repo.Delete st.db id with
    | .error _ => (some .userNotFound, st)
    | .ok db' =>
      let c := redisCache.DeleteUser st.cache id u.email
      (none, { db := db', cache := c })

/-- middleware.RateLimiterConfig. -/
structure RateLimiterConfig where
  requestsPerMinute : Int
  burstSize : Int
deriving DecidableEq, Repr

/-- middleware.rateLimiterEntry: the per-key token bucket.  `lastUpdate`
is a monotonic-clock reading in nanoseconds. -/
structure rateLimiterEntry where
  tokens : Int
  lastUpdate : Nat
deriving DecidableEq, Repr

/-- The in-memory limiter's key → entry map. -/
abbrev RLState := List (String × rateLimiterEntry)

/-- Look an ip's entry up in the map. -/
def rlFind (st : RLState) (ip : String) : Option rateLimiterEntry :=
  (st.find? (fun p => p.1 == ip)).map (·.2)

/-- Store an ip's entry in the map, replacing any previous one. -/
def rlInsert (st : RLState) (ip : String) (e : rateLimiterEntry) : RLState :=
  (ip, e) :: st.filter (fun p => p.1 ≠ ip)

/-- The refill amount `int(elapsed.Minutes() * float64(rate))` computed
exactly over the integers: nanoseconds-elapsed times rate, divided by the
nanoseconds in a minute, truncating toward zero as Go's float-to-int
conversion does. -/
def refillTokens (elapsedNs : Int) (rate : Int) : Int :=
  Int.tdiv (elapsedNs * rate) 60000000000

/-- middleware.RateLimiter.allow (middleware/ratelimit.go): lazily create
the entry at `burstSize` tokens, refill by elapsed minutes times the
rate capped at `burstSize` (updating `lastUpdate` only when the refill
is positive), then take a token if one is available. -/
def RateLimiter.allow (cfg : RateLimiterConfig) (st : RLState) (ip : String)
    (now : Nat) : Bool × RLState :=
  let e0 : rateLimiterEntry :=
    match rlFind st ip with
    | some e => e
    | none => { tokens := cfg.burstSize, lastUpdate := now }
  let elapsed : Int := (now : Int) - (e0.lastUpdate : Int)
  let tokensToAdd := refillTokens elapsed cfg.requestsPerMinute
  let e1 :=
    if 0 < tokensToAdd then
      { tokens := min (e0.tokens + tokensToAdd) cfg.burstSize, lastUpdate := now }
    else e0
  if 0 < e1.tokens then
    (true, rlInsert st ip { e1 with tokens := e1.tokens - 1 })
  else
    (false, rlInsert st ip e1)

/-- A sequence of allow calls for one ip at the given instants, returning
the per-call decisions and the final map. -/
def RateLimiter.run (cfg : RateLimiterConfig) (st : RLState) (ip : String) :
    List Nat → List Bool × RLState
  | [] => ([], st)
  | t :: ts =>
    let (b, st') := RateLimiter.allow cfg st ip t
    let (bs, st'') := RateLimiter.run cfg st' ip ts
    (b :: bs, st'')

/-- The capability the distributed limiter needs from its backend: the
`IncrementRateLimit` method of the `cache.Cache` interface, over backend
state `σ`. -/
structure CounterStore (σ : Type) where
  incrementRateLimit : σ → String → Nat → (Except CacheErr Int) × σ

/-- The live Redis backend as a counter store. -/
def redisCounterStore : CounterStore RedisState :=
  ⟨redisCache.IncrementRateLimit⟩

/-- The no-op backend as a counter store (stateless). -/
def noOpCounterStore : CounterStore Unit :=
  ⟨fun _ key window => (noOpCache.IncrementRateLimit key window, ())⟩

/-- An unreachable backend whose increment always fails. -/
def downCounterStore : CounterStore Unit :=
  ⟨fun _ _ _ => (.error .backend, ())⟩

/-- middleware.RedisRateLimiter.allow (services/interfaces.go, second
document): increment the distributed counter; on a backend error fail
open (allow); otherwise deny exactly when the returned count exceeds
`requestsPerMinute`. -/
def RedisRateLimiter.allow {σ : Type} (cs : CounterStore σ)
    (cfg : RateLimiterConfig) (window : Nat) (st : σ) (key : String) :
    Bool × σ :=
  match cs.incrementRateLimit st key window with
  | (.error _, st') => (true, st')
  | (.ok count, st') =>
    if cfg.requestsPerMinute < count then (false, st') else (true, st')

/-- A sequence of distributed allow calls against a shared backend. -/
def RedisRateLimiter.run {σ : Type} (cs : CounterStore σ)
    (cfg : RateLimiterConfig) (window : Nat) (st : σ) (key : String) :
    Nat → List Bool × σ
  | 0 => ([], st)
  | n + 1 =>
    let (b, st') := RedisRateLimiter.allow cs cfg window st key
    let (bs, st'') := RedisRateLimiter.run cs cfg window st' key n
    (b :: bs, st'')

/-- The per-entry bounds the token bucket maintains: a token count that
is never negative and never exceeds the burst size, for every entry of
the limiter's map. -/
def mapInv (cfg : RateLimiterConfig) (st : RLState) : Prop :=
  ∀ p ∈ st, 0 ≤ p.2.tokens ∧ p.2.tokens ≤ cfg.burstSize

/-- The two rate-limiting strategies. -/
inductive Strategy where
  | redisBacked
  | inMemory
deriving DecidableEq, Repr

/-- The three `cache.Cache` methods the selection probe uses, over
backend state `σ`. -/
structure ProbeCache (σ : Type) where
  set : σ → String → String → Nat → (Option CacheErr) × σ
  get : σ → String → (Except CacheErr String) × σ
  del : σ → String → (Option CacheErr) × σ

/-- The live Redis backend as seen by the probe. -/
def redisProbeCache : ProbeCache RedisState :=
  { set := fun st k v ttl => (none, redisCache.Set st k v ttl)
    get := fun st k => (redisCache.Get st k, st)
    del := fun st k => (none, redisCache.Delete st k) }

/-- The no-op backend as seen by the probe. -/
def noOpProbeCache : ProbeCache Unit :=
  { set := fun _ k v ttl => (noOpCache.Set k v ttl, ())
    get := fun _ k => (noOpCache.Get k, ())
    del := fun _ k => (noOpCache.Delete k, ()) }

/-- The strategy-selection probe inside
middleware.RateLimitMiddlewareWithCache (part_006): SET a test value,
GET it back, and use the distributed strategy only when the GET succeeds
with exactly the value written (then DEL the test key); any other
outcome selects the in-memory strategy. -/
def selectStrategy {σ : Type} (pc : ProbeCache σ) (st : σ) : Strategy × σ :=
  let testKey := "ratelimit:init:test"
  let testValue := "test"
  match pc.set st testKey testValue 1000000000 with
  | (some _, st') => (.inMemory, st')
  | (none, st') =>
    match pc.get st' testKey with
    | (.ok v, st'') =>
      if v = testValue then (.redisBacked, (pc.del st'' testKey).2)
      else (.inMemory, st'')
    | (.error _, st'') => (.inMemory, st'')

/-- The sync.Once-memoized selection: the first call runs the probe and
records the strategy; later calls return the recorded strategy without
touching the backend. -/
def ensureStrategy {σ : Type} (pc : ProbeCache σ) (memo : Option Strategy)
    (st : σ) : Strategy × Option Strategy × σ :=
  match memo with
  | some s => (s, some s, st)
  | none =>
    let (s, st') := selectStrategy pc st
    (s, some s, st')


/-- Filtering out one key leaves searches for any other key unchanged. -/
theorem find_filter_ne {α : Type} (l : List (String × α)) (k k' : String)
    (h : k' ≠ k) :
    (l.filter (fun p => p.1 ≠ k)).find? (fun p => p.1 == k') =
      l.find? (fun p => p.1 == k') := by
  induction l with
  | nil => rfl
  | cons a l ih =>
    by_cases hk : a.1 = k
    · rw [List.filter_cons_of_neg (by simpa using hk),
        List.find?_cons_of_neg _ (by simp [hk]; exact fun he => h he.symm), ih]
    · rw [List.filter_cons_of_pos (by simpa using hk)]
      by_cases hk2 : a.1 = k'
      · rw [List.find?_cons_of_pos _ (by simpa using hk2),
          List.find?_cons_of_pos _ (by simpa using hk2)]
      · rw [List.find?_cons_of_neg _ (by simpa using hk2),
          List.find?_cons_of_neg _ (by simpa using hk2), ih]

/-- A freshly stored key is found with its new value. -/
theorem rlookup_rstore_self (st : RedisState) (k : String) (v : RVal) :
    rlookup (rstore st k v) k = some v := by
  simp only [rlookup, rstore]
  rw [List.find?_cons_of_pos _ (by simp)]
  rfl

/-- Storing one key leaves lookups of any other key unchanged. -/
theorem rlookup_rstore_ne (st : RedisState) (k k' : String) (v : RVal)
    (h : k' ≠ k) :
    rlookup (rstore st k v) k' = rlookup st k' := by
  simp only [rlookup, rstore]
  rw [List.find?_cons_of_neg _ (by simp; exact fun he => h he.symm),
    find_filter_ne st k k' h]

/-- A removed key is no longer found. -/
theorem rlookup_rremove_self (st : RedisState) (k : String) :
    rlookup (rremove st k) k = none := by
  simp only [rlookup, rremove]
  rw [List.find?_eq_none.mpr]
  · rfl
  · intro x hx
    have hne := (List.mem_filter.mp hx).2
    simpa using hne

/-- Removing one key leaves lookups of any other key unchanged. -/
theorem rlookup_rremove_ne (st : RedisState) (k k' : String)
    (h : k' ≠ k) :
    rlookup (rremove st k) k' = rlookup st k' := by
  simp only [rlookup, rremove]
  rw [find_filter_ne st k k' h]

/-- An id key is never an email key: the fixed prefixes differ. -/
theorem userIDKey_ne_userEmailKey (id : Int) (e : String) :
    userIDKey id ≠ userEmailKey e := by
  intro h
  have hd := congrArg String.data h
  simp [userIDKey, userEmailKey, String.data_append] at hd

/-- The email-key pattern is injective in the raw email string. -/
theorem userEmailKey_inj {e1 e2 : String} (h : userEmailKey e1 = userEmailKey e2) :
    e1 = e2 := by
  have hd := congrArg String.data h
  simp [userEmailKey, String.data_append] at hd
  exact String.ext hd

/-- The JSON round trip erases exactly the password hash. -/
theorem unmarshal_marshal (u : User) :
    unmarshalUser (marshalUser u) = eraseHash u := rfl

/-- Reading back the id key just written. -/
theorem getById_setById (st : RedisState) (id : Int) (u : User) (ttl : Nat) :
    redisCache.GetUserByID (redisCache.SetUserByID st id u ttl) id =
      .ok (eraseHash u) := by
  simp [redisCache.GetUserByID, redisCache.SetUserByID, rlookup_rstore_self,
    unmarshal_marshal]

/-- An email-key write does not affect id-key reads. -/
theorem getById_setByEmail (st : RedisState) (e : String) (u : User) (ttl : Nat)
    (id : Int) :
    redisCache.GetUserByID (redisCache.SetUserByEmail st e u ttl) id =
      redisCache.GetUserByID st id := by
  simp only [redisCache.GetUserByID, redisCache.SetUserByEmail,
    rlookup_rstore_ne _ _ _ _ (userIDKey_ne_userEmailKey id e)]

/-- An id-key write does not affect email-key reads. -/
theorem getByEmail_setById (st : RedisState) (id : Int) (u : User) (ttl : Nat)
    (e : String) :
    redisCache.GetUserByEmail (redisCache.SetUserByID st id u ttl) e =
      redisCache.GetUserByEmail st e := by
  simp only [redisCache.GetUserByEmail, redisCache.SetUserByID,
    rlookup_rstore_ne _ _ _ _ fun h => userIDKey_ne_userEmailKey id e h.symm]

/-- Reading back the email key just written. -/
theorem getByEmail_setByEmail_self (st : RedisState) (e : String) (u : User)
    (ttl : Nat) :
    redisCache.GetUserByEmail (redisCache.SetUserByEmail st e u ttl) e =
      .ok (eraseHash u) := by
  simp [redisCache.GetUserByEmail, redisCache.SetUserByEmail, rlookup_rstore_self,
    unmarshal_marshal]

/-- An email-key write under a different raw email does not affect reads. -/
theorem getByEmail_setByEmail_ne (st : RedisState) (e e' : String) (u : User)
    (ttl : Nat) (h : e' ≠ e) :
    redisCache.GetUserByEmail (redisCache.SetUserByEmail st e u ttl) e' =
      redisCache.GetUserByEmail st e' := by
  simp only [redisCache.GetUserByEmail, redisCache.SetUserByEmail,
    rlookup_rstore_ne _ _ _ _ fun hk => h (userEmailKey_inj hk)]

/-- Deleting the id key does not affect email-key reads. -/
theorem getByEmail_deleteById (st : RedisState) (id : Int) (e : String) :
    redisCache.GetUserByEmail (redisCache.DeleteUserByID st id) e =
      redisCache.GetUserByEmail st e := by
  simp only [redisCache.GetUserByEmail, redisCache.DeleteUserByID,
    rlookup_rremove_ne _ _ _ fun h => userIDKey_ne_userEmailKey id e h.symm]

/-- Reading an email key just deleted misses. -/
theorem getByEmail_deleteByEmail_self (st : RedisState) (e : String) :
    redisCache.GetUserByEmail (redisCache.DeleteUserByEmail st e) e =
      .error .miss := by
  simp [redisCache.GetUserByEmail, redisCache.DeleteUserByEmail,
    rlookup_rremove_self]

/-- After the combined DeleteUser, the id key misses. -/
theorem getById_deleteUser (st : RedisState) (id : Int) (e : String) :
    redisCache.GetUserByID (redisCache.DeleteUser st id e) id = .error .miss := by
  simp only [redisCache.GetUserByID, redisCache.DeleteUser]
  rw [rlookup_rremove_ne _ _ _ (userIDKey_ne_userEmailKey id e),
    rlookup_rremove_self]

/-- After the combined DeleteUser, the email key misses. -/
theorem getByEmail_deleteUser (st : RedisState) (id : Int) (e : String) :
    redisCache.GetUserByEmail (redisCache.DeleteUser st id e) e = .error .miss := by
  simp only [redisCache.GetUserByEmail, redisCache.DeleteUser,
    rlookup_rremove_self]

/-- C7 (confirmed): the no-op backend satisfies its null contract for every
key, value and TTL: `Get` and `Exists` report a miss and `false`, `Set` and
`Delete` succeed as no-ops (the backend is stateless, so there is no state
to affect), `IncrementRateLimit` returns 0 with a nil error, and `Ping`
succeeds. -/
theorem noOpCache_contract (key value : String) (ttl window : Nat) :
    noOpCache.Get key = .error .miss ∧
    noOpCache.Exists key = false ∧
    noOpCache.Set key value ttl = none ∧
    noOpCache.Delete key = none ∧
    noOpCache.IncrementRateLimit key window = .ok 0 ∧
    noOpCache.Ping = none :=
  ⟨rfl, rfl, rfl, rfl, rfl, rfl⟩

/-- C4 (confirmed): whenever the counter store's increment reports an
error, the distributed rate limiter allows the request; its decision is a
plain boolean, so the error never surfaces to the caller. -/
theorem redisRateLimiter_fail_open {σ : Type} (cs : CounterStore σ)
    (cfg : RateLimiterConfig) (window : Nat) (st : σ) (key : String)
    (e : CacheErr)
    (h : (cs.incrementRateLimit st key window).1 = .error e) :
    (RedisRateLimiter.allow cs cfg window st key).1 = true := by
  rcases hx : cs.incrementRateLimit st key window with ⟨r, st'⟩
  rw [hx] at h
  cases r with
  | error e' => simp [RedisRateLimiter.allow, hx]
  | ok c => simp at h

/-- Witness for C4: an unreachable backend, and the request is allowed. -/
theorem redisRateLimiter_fail_open_witness :
    (RedisRateLimiter.allow downCounterStore ⟨60, 10⟩ RateLimitWindow ()
      "1.2.3.4").1 = true :=
  redisRateLimiter_fail_open downCounterStore ⟨60, 10⟩ RateLimitWindow ()
    "1.2.3.4" .backend rfl

/-- C9 (corrected, counterexample): the by-email cache key is not
normalized: a record written under the email `"A@x.com"` is not found by a
read differing only in letter case. -/
theorem emailKey_not_normalized_cex :
    redisCache.GetUserByEmail
      (redisCache.SetUserByEmail [] "A@x.com"
        ⟨1, "Jo", "Do", "A@x.com", "h", "1", "user", 0, 0⟩ UserCacheTTL)
      "a@x.com" = .error .miss := rfl

/-- C9 (amended): the by-email cache key is formed from the email string
exactly as given, with no normalization: a read finds a written record
precisely when the two raw email strings are equal, and otherwise the
write is invisible to it.  Case-insensitivity of email lookups is
provided by the authoritative store, not by the cache keying. -/
theorem emailKey_raw_string_keying (st : RedisState) (e e' : String)
    (u : User) (ttl : Nat) :
    redisCache.GetUserByEmail (redisCache.SetUserByEmail st e u ttl) e' =
      if e' = e then .ok (eraseHash u) else redisCache.GetUserByEmail st e' := by
  by_cases h : e' = e
  · subst h
    simp [getByEmail_setByEmail_self]
  · simp [h, getByEmail_setByEmail_ne st e e' u ttl h]

/-- C5 (confirmed): against the live Redis backend the distributed
limiter denies exactly when the count returned by the increment exceeds
`requestsPerMinute` — the decision is a function of the shared counter
state alone, so it does not depend on which limiter instance issues the
call — and concretely, with `requestsPerMinute` = 60, of 61 increments
within one window the first 60 are allowed and the 61st is denied. -/
theorem redisRateLimiter_threshold :
    (∀ (cfg : RateLimiterConfig) (window : Nat) (st : RedisState) (key : String),
      (RedisRateLimiter.allow redisCounterStore cfg window st key).1 = false ↔
        ∃ c, (redisCache.IncrementRateLimit st key window).1 = .ok c ∧
          cfg.requestsPerMinute < c) ∧
    (RedisRateLimiter.run redisCounterStore ⟨60, 10⟩ RateLimitWindow []
        "1.2.3.4" 61).1 =
      List.replicate 60 true ++ [false] := by
  constructor
  · intro cfg window st key
    rcases hx : redisCache.IncrementRateLimit st key window with ⟨r, st'⟩
    cases r with
    | error e =>
      simp [RedisRateLimiter.allow, redisCounterStore, hx]
    | ok c =>
      by_cases hc : cfg.requestsPerMinute < c
      · simp [RedisRateLimiter.allow, redisCounterStore, hx, hc]
      · simp [RedisRateLimiter.allow, redisCounterStore, hx, hc]
  · rfl

/-- C3 (confirmed): DeleteUser on a missing record returns not-found and
leaves both the authoritative store and the cache untouched; on an
existing record it succeeds, removes the row from the authoritative
store, and leaves both the by-id and the by-email cache keys as misses. -/
theorem deleteUser_completeness (st : SvcState) (id : Int) :
    (repo.FindByID st.db id = none →
      userService.DeleteUser st id = (some .userNotFound, st)) ∧
    (∀ u : User, repo.FindByID st.db id = some u →
      (userService.DeleteUser st id).1 = none ∧
      redisCache.GetUserByID (userService.DeleteUser st id).2.cache id =
        .error .miss ∧
      redisCache.GetUserByEmail (userService.DeleteUser st id).2.cache u.email =
        .error .miss ∧
      repo.FindByID (userService.DeleteUser st id).2.db id = none) := by
  constructor
  · intro h
    simp [userService.DeleteUser, h]
  · intro u h
    have hfind : st.db.find? (fun v => v.id == id) = some u := h
    have hpu := List.find?_some hfind
    have hmem := List.mem_of_find?_eq_some hfind
    have hany : st.db.any (fun v => v.id == id) = true :=
      List.any_eq_true.mpr ⟨u, hmem, hpu⟩
    have hdel : repo.Delete st.db id =
        .ok (st.db.filter (fun v => v.id ≠ id)) := by
      simp [repo.Delete, hany]
    have hres : userService.DeleteUser st id =
        (none, { db := st.db.filter (fun v => v.id ≠ id),
                 cache := redisCache.DeleteUser st.cache id u.email }) := by
      simp [userService.DeleteUser, h, hdel]
    refine ⟨by simp [hres], ?_, ?_, ?_⟩
    · rw [hres]
      exact getById_deleteUser st.cache id u.email
    · rw [hres]
      exact getByEmail_deleteUser st.cache id u.email
    · rw [hres]
      simp only [repo.FindByID]
      rw [List.find?_eq_none.mpr]
      intro x hx
      have hne := (List.mem_filter.mp hx).2
      simp at hne ⊢
      exact hne

/-- Witness for C3: both branches at concrete states — a one-row store
from which id 1 is deleted (both cache keys miss afterwards), and an
empty store for which delete is not-found and state-preserving. -/
theorem deleteUser_completeness_witness :
    userService.DeleteUser ⟨[], []⟩ 1 = (some .userNotFound, ⟨[], []⟩) ∧
    (userService.DeleteUser
        ⟨[⟨1, "Jo", "Do", "a@x.com", "h", "1", "user", 0, 0⟩], []⟩ 1).1 = none ∧
    redisCache.GetUserByID
      (userService.DeleteUser
        ⟨[⟨1, "Jo", "Do", "a@x.com", "h", "1", "user", 0, 0⟩], []⟩ 1).2.cache 1 =
      .error .miss := by
  refine ⟨(deleteUser_completeness ⟨[], []⟩ 1).1 rfl, ?_, ?_⟩
  · exact ((deleteUser_completeness
      ⟨[⟨1, "Jo", "Do", "a@x.com", "h", "1", "user", 0, 0⟩], []⟩ 1).2
      ⟨1, "Jo", "Do", "a@x.com", "h", "1", "user", 0, 0⟩ rfl).1
  · exact ((deleteUser_completeness
      ⟨[⟨1, "Jo", "Do", "a@x.com", "h", "1", "user", 0, 0⟩], []⟩ 1).2
      ⟨1, "Jo", "Do", "a@x.com", "h", "1", "user", 0, 0⟩ rfl).2.1

/-- After populating both keys from one record, the id key hits. -/
theorem getById_after_populate (cache : RedisState) (i : Int) (e : String)
    (u : User) (t1 t2 : Nat) :
    redisCache.GetUserByID
      (redisCache.SetUserByEmail (redisCache.SetUserByID cache i u t1) e u t2)
      i = .ok (eraseHash u) := by
  rw [getById_setByEmail, getById_setById]

/-- After populating both keys from one record, the email key hits. -/
theorem getByEmail_after_populate (cache : RedisState) (i : Int) (e : String)
    (u : User) (t1 t2 : Nat) :
    redisCache.GetUserByEmail
      (redisCache.SetUserByEmail (redisCache.SetUserByID cache i u t1) e u t2)
      e = .ok (eraseHash u) := by
  rw [getByEmail_setByEmail_self]

/-- C1 (corrected, counterexample): the cached copy is not equal to the
created record in every field — `PassHash` is dropped by the JSON
serialization, so the cache-served read differs from the record
CreateUser returned. -/
theorem createUser_cache_exact_equality_cex :
    (userService.CreateUser (fun s => "h:" ++ s) ⟨[], []⟩
        ⟨"Jo", "Do", "a@x.com", "pw", "1", "user"⟩).1 =
      .ok ⟨1, "Jo", "Do", "a@x.com", "h:pw", "1", "user", 0, 0⟩ ∧
    (userService.GetUserByID
        (userService.CreateUser (fun s => "h:" ++ s) ⟨[], []⟩
          ⟨"Jo", "Do", "a@x.com", "pw", "1", "user"⟩).2 1).1 ≠
      .ok ⟨1, "Jo", "Do", "a@x.com", "h:pw", "1", "user", 0, 0⟩ := by
  constructor
  · rfl
  · intro h
    have : ("" : String) = "h:pw" := congrArg
      (fun r => match r with | .ok v => v.passHash | .error _ => "") h
    simp at this

/-- Inversion of a successful CreateUser: the resulting state appends the
created record to the store and populates both cache keys with it. -/
theorem createUser_ok_shape (hash : String → String) (st : SvcState)
    (input : CreateUserInput) (u : User)
    (hc : (userService.CreateUser hash st input).1 = .ok u) :
    userService.CreateUser hash st input =
      (.ok u, ⟨st.db ++ [u],
        redisCache.SetUserByEmail
          (redisCache.SetUserByID st.cache u.id u UserCacheTTL)
          u.email u UserCacheTTL⟩) := by
  unfold userService.CreateUser at hc ⊢
  split_ifs at hc ⊢ with h1 h2 h3
  all_goals first
  | (simp at hc
     done)
  | (unfold repo.Create at hc ⊢
     dsimp only at hc ⊢
     rw [Except.ok.injEq] at hc
     subst hc
     rfl)

/-- C1 (amended): after CreateUser succeeds returning U, both cache-served
reads return U with every field intact except `PassHash`, which the JSON
serialization omits (json:"-") and which deserializes as the empty string;
likewise after a by-id read that fell through to the authoritative store;
the serialize/deserialize round trip is exact on all serialized fields
(it erases exactly the password hash). -/
theorem cacheAside_read_after_write_up_to_hash
    (hash : String → String) (st : SvcState) (input : CreateUserInput)
    (u : User)
    (hc : (userService.CreateUser hash st input).1 = .ok u) :
    userService.GetUserByID (userService.CreateUser hash st input).2 u.id =
      (.ok (eraseHash u), (userService.CreateUser hash st input).2) ∧
    userService.GetUserByEmail (userService.CreateUser hash st input).2 u.email =
      (.ok (eraseHash u), (userService.CreateUser hash st input).2) ∧
    (∀ (db : DB) (cache : RedisState) (i : Int) (v : User),
      repo.FindByID db i = some v →
      redisCache.GetUserByID cache i = .error .miss →
      userService.GetUserByID (userService.GetUserByID ⟨db, cache⟩ i).2 i =
        (.ok (eraseHash v), (userService.GetUserByID ⟨db, cache⟩ i).2) ∧
      userService.GetUserByEmail (userService.GetUserByID ⟨db, cache⟩ i).2
          v.email =
        (.ok (eraseHash v), (userService.GetUserByID ⟨db, cache⟩ i).2)) ∧
    (∀ v : User, unmarshalUser (marshalUser v) = eraseHash v) := by
  refine ⟨?_, ?_, ?_, fun v => unmarshal_marshal v⟩
  · rw [createUser_ok_shape hash st input u hc]
    simp only [userService.GetUserByID, getById_after_populate]
  · rw [createUser_ok_shape hash st input u hc]
    simp only [userService.GetUserByEmail, getByEmail_after_populate]
  · intro db cache i v hfind hmiss
    have hstep : userService.GetUserByID ⟨db, cache⟩ i =
        (.ok v, ⟨db, redisCache.SetUserByEmail
          (redisCache.SetUserByID cache i v UserCacheTTL)
          v.email v UserCacheTTL⟩) := by
      simp [userService.GetUserByID, hmiss, hfind]
    rw [hstep]
    constructor
    · simp only [userService.GetUserByID, getById_after_populate]
    · simp only [userService.GetUserByEmail, getByEmail_after_populate]

/-- Witness for C1 (amended): a concrete created user, read back from the
cache with an empty password hash and all other fields intact. -/
theorem cacheAside_read_after_write_up_to_hash_witness :
    userService.GetUserByID
      (userService.CreateUser (fun s => "h:" ++ s) ⟨[], []⟩
        ⟨"Jo", "Do", "a@x.com", "pw", "1", "user"⟩).2 1 =
      (.ok (eraseHash ⟨1, "Jo", "Do", "a@x.com", "h:pw", "1", "user", 0, 0⟩),
        (userService.CreateUser (fun s => "h:" ++ s) ⟨[], []⟩
          ⟨"Jo", "Do", "a@x.com", "pw", "1", "user"⟩).2) := by
  have h := cacheAside_read_after_write_up_to_hash (fun s => "h:" ++ s)
    ⟨[], []⟩ ⟨"Jo", "Do", "a@x.com", "pw", "1", "user"⟩
    ⟨1, "Jo", "Do", "a@x.com", "h:pw", "1", "user", 0, 0⟩ rfl
  exact h.1

/-- C2 (corrected, counterexample): after an email-changing update, the
cache lookup by the new email does not return a record equal to the
updated record — the cached copy has an empty `PassHash`. -/
theorem updateUser_newEmail_exact_record_cex :
    (userService.UpdateUser (fun s => "h:" ++ s)
        (userService.CreateUser (fun s => "h:" ++ s) ⟨[], []⟩
          ⟨"Jo", "Do", "a@x.com", "pw", "1", "user"⟩).2 1
        ⟨none, none, some "b@y.com", none, none, none⟩).1 =
      .ok ⟨1, "Jo", "Do", "b@y.com", "h:pw", "1", "user", 0, 0⟩ ∧
    redisCache.GetUserByEmail
      (userService.UpdateUser (fun s => "h:" ++ s)
        (userService.CreateUser (fun s => "h:" ++ s) ⟨[], []⟩
          ⟨"Jo", "Do", "a@x.com", "pw", "1", "user"⟩).2 1
        ⟨none, none, some "b@y.com", none, none, none⟩).2.cache "b@y.com" ≠
      .ok ⟨1, "Jo", "Do", "b@y.com", "h:pw", "1", "user", 0, 0⟩ := by
  constructor
  · rfl
  · intro h
    have : ("" : String) = "h:pw" := congrArg
      (fun r => match r with | .ok v => v.passHash | .error _ => "") h
    simp at this

/-- C2 (amended): an update that changes the email (normalized forms
differ) deletes the old email key and the id key, then repopulates the id
key and the new (normalized) email key with the updated record: afterwards
the cache lookup by the old email misses and the lookups by the new email
and by id return the updated record with `PassHash` erased by the JSON
round trip and every other field intact. -/
theorem updateUser_email_change_cleanup
    (hash : String → String) (st : SvcState) (id : Int) (u0 : User)
    (newEmail : String)
    (hfind : repo.FindByID st.db id = some u0)
    (hchange : normalizeEmail newEmail ≠ normalizeEmail u0.email)
    (hunique : repo.ExistsByEmail st.db newEmail = false)
    (hnorm : normalizeEmail u0.email = u0.email) :
    (userService.UpdateUser hash st id
        ⟨none, none, some newEmail, none, none, none⟩).1 =
      .ok { u0 with email := normalizeEmail newEmail } ∧
    redisCache.GetUserByEmail
      (userService.UpdateUser hash st id
        ⟨none, none, some newEmail, none, none, none⟩).2.cache u0.email =
      .error .miss ∧
    redisCache.GetUserByEmail
      (userService.UpdateUser hash st id
        ⟨none, none, some newEmail, none, none, none⟩).2.cache
      (normalizeEmail newEmail) =
      .ok (eraseHash { u0 with email := normalizeEmail newEmail }) ∧
    redisCache.GetUserByID
      (userService.UpdateUser hash st id
        ⟨none, none, some newEmail, none, none, none⟩).2.cache id =
      .ok (eraseHash { u0 with email := normalizeEmail newEmail }) := by
  have hne_raw : newEmail ≠ u0.email := fun h => hchange (by rw [h])
  have hfind' : st.db.find? (fun v => v.id == id) = some u0 := hfind
  have hid : u0.id = id := by
    have := List.find?_some hfind'
    simpa using this
  have hres : userService.UpdateUser hash st id
      ⟨none, none, some newEmail, none, none, none⟩ =
      (.ok { u0 with email := normalizeEmail newEmail },
        ⟨st.db.map (fun v =>
            if v.id == u0.id then { u0 with email := normalizeEmail newEmail }
            else v),
          redisCache.SetUserByEmail
            (redisCache.SetUserByID
              (redisCache.DeleteUserByID
                (redisCache.DeleteUserByEmail st.cache u0.email) id)
              u0.id { u0 with email := normalizeEmail newEmail } UserCacheTTL)
            (normalizeEmail newEmail)
            { u0 with email := normalizeEmail newEmail } UserCacheTTL⟩) := by
    simp [userService.UpdateUser, hfind, hchange, hunique, repo.Update,
      hne_raw]
  refine ⟨by rw [hres], ?_, ?_, ?_⟩
  · rw [hres]
    have h1 : u0.email ≠ normalizeEmail newEmail := fun h =>
      hchange (by rw [hnorm, ← h])
    dsimp only
    rw [getByEmail_setByEmail_ne _ _ _ _ _ h1, getByEmail_setById,
      getByEmail_deleteById, getByEmail_deleteByEmail_self]
  · rw [hres]
    dsimp only
    rw [getByEmail_setByEmail_self]
  · rw [hres]
    dsimp only
    rw [getById_setByEmail, ← hid, getById_setById]

/-- Witness for C2 (amended): a concrete email change from a@x.com to
b@y.com; the old-email key misses and the id key serves the updated
record (hash erased). -/
theorem updateUser_email_change_cleanup_witness :
    redisCache.GetUserByEmail
      (userService.UpdateUser (fun s => "h:" ++ s)
        (userService.CreateUser (fun s => "h:" ++ s) ⟨[], []⟩
          ⟨"Jo", "Do", "a@x.com", "pw", "1", "user"⟩).2 1
        ⟨none, none, some "b@y.com", none, none, none⟩).2.cache "a@x.com" =
      .error .miss ∧
    redisCache.GetUserByID
      (userService.UpdateUser (fun s => "h:" ++ s)
        (userService.CreateUser (fun s => "h:" ++ s) ⟨[], []⟩
          ⟨"Jo", "Do", "a@x.com", "pw", "1", "user"⟩).2 1
        ⟨none, none, some "b@y.com", none, none, none⟩).2.cache 1 =
      .ok (eraseHash ⟨1, "Jo", "Do", "b@y.com", "h:pw", "1", "user", 0, 0⟩) := by
  have h := updateUser_email_change_cleanup (fun s => "h:" ++ s)
    (userService.CreateUser (fun s => "h:" ++ s) ⟨[], []⟩
      ⟨"Jo", "Do", "a@x.com", "pw", "1", "user"⟩).2 1
    ⟨1, "Jo", "Do", "a@x.com", "h:pw", "1", "user", 0, 0⟩ "b@y.com"
    rfl (by decide) rfl (by decide)
  exact ⟨h.2.1, h.2.2.2⟩

/-- Truncating division of anything smaller than the (nonnegative)
divisor is not positive. -/
theorem tdiv_nonpos_of_lt (x d : Int) (hd : 0 ≤ d) (h : x < d) :
    Int.tdiv x d ≤ 0 := by
  rcases le_or_lt 0 x with hx | hx
  · rw [Int.tdiv_eq_ediv hx hd]
    have : x / d = 0 := Int.ediv_eq_zero_of_lt hx h
    omega
  · have h1 : Int.tdiv (-x) d = -Int.tdiv x d := Int.neg_tdiv x d
    have h2 : 0 ≤ Int.tdiv (-x) d := Int.tdiv_nonneg (by omega) hd
    omega

/-- Within one second of `t0` the coarse per-minute refill at rate 60
adds nothing: the elapsed minutes times the rate truncates to zero. -/
theorem refill_zero_within_window (t t0 : Nat) (hw : t < t0 + 1000000000) :
    ¬ 0 < refillTokens ((t : Int) - (t0 : Int)) 60 := by
  have hlt : ((t : Int) - (t0 : Int)) * 60 < (60000000000 : Int) := by
    omega
  have := tdiv_nonpos_of_lt (((t : Int) - (t0 : Int)) * 60) 60000000000
    (by norm_num) hlt
  simp only [refillTokens]
  omega

/-- Lookup in a one-entry map. -/
theorem rlFind_single (key : String) (e : rateLimiterEntry) :
    rlFind [(key, e)] key = some e := by
  simp [rlFind, List.find?]

/-- Running a burst against a single bucket entry within one refill-free
window: exactly `min (number of calls) (tokens)` are allowed. -/
theorem run_single_within_window (key : String) (t0 : Nat) :
    ∀ (ts : List Nat) (n : Int), 0 ≤ n →
    (∀ t ∈ ts, t < t0 + 1000000000) →
    (RateLimiter.run ⟨60, 10⟩ [(key, ⟨n, t0⟩)] key ts).1.count true =
      min ts.length n.toNat ∧
    (RateLimiter.run ⟨60, 10⟩ [(key, ⟨n, t0⟩)] key ts).1.count false =
      ts.length - n.toNat := by
  intro ts
  induction ts with
  | nil => intro n hn hw; simp [RateLimiter.run]
  | cons t ts ih =>
    intro n hn hw
    have hwt : t < t0 + 1000000000 := hw t (by simp)
    have hwrest : ∀ s ∈ ts, s < t0 + 1000000000 := fun s hs => hw s (by simp [hs])
    have hrefill := refill_zero_within_window t t0 hwt
    by_cases hpos : 0 < n
    · have hallow : RateLimiter.allow ⟨60, 10⟩ [(key, ⟨n, t0⟩)] key t =
          (true, [(key, ⟨n - 1, t0⟩)]) := by
        simp [RateLimiter.allow, rlFind_single, hrefill, rlInsert, hpos]
      have hrec := ih (n - 1) (by omega) hwrest
      simp only [RateLimiter.run, hallow]
      rcases hx : RateLimiter.run ⟨60, 10⟩ [(key, ⟨n - 1, t0⟩)] key ts with ⟨bs, stf⟩
      rw [hx] at hrec
      simp only at hrec ⊢
      rw [List.count_cons]
      simp only [hrec.1, hrec.2]
      constructor
      · simp
        omega
      · simp
        omega
    · have hzero : n = 0 := by omega
      subst hzero
      have hallow : RateLimiter.allow ⟨60, 10⟩ [(key, ⟨0, t0⟩)] key t =
          (false, [(key, ⟨0, t0⟩)]) := by
        simp [RateLimiter.allow, rlFind_single, hrefill, rlInsert]
      have hrec := ih 0 (by omega) hwrest
      simp only [RateLimiter.run, hallow]
      rcases hx : RateLimiter.run ⟨60, 10⟩ [(key, ⟨0, t0⟩)] key ts with ⟨bs, stf⟩
      rw [hx] at hrec
      simp only at hrec ⊢
      rw [List.count_cons]
      simp only [hrec.1, hrec.2]
      constructor
      · simp
      · simp
        omega

/-- C6 (confirmed): with requestsPerMinute = 60 and burstSize = 10, any
70 calls for one fresh key that all fall within one second of the first
call yield exactly 10 allowed and 60 denied. -/
theorem tokenBucket_burst_70 (key : String) (t0 : Nat) (ts : List Nat)
    (hlen : ts.length = 69)
    (hw : ∀ t ∈ ts, t < t0 + 1000000000) :
    (RateLimiter.run ⟨60, 10⟩ [] key (t0 :: ts)).1.count true = 10 ∧
    (RateLimiter.run ⟨60, 10⟩ [] key (t0 :: ts)).1.count false = 60 := by
  have hallow : RateLimiter.allow ⟨60, 10⟩ [] key t0 =
      (true, [(key, ⟨9, t0⟩)]) := by
    simp [RateLimiter.allow, rlFind, List.find?, rlInsert, refillTokens]
  have hrec := run_single_within_window key t0 ts 9 (by omega) hw
  simp only [RateLimiter.run, hallow]
  rcases hx : RateLimiter.run ⟨60, 10⟩ [(key, ⟨9, t0⟩)] key ts with ⟨bs, stf⟩
  rw [hx] at hrec
  simp only at hrec ⊢
  rw [List.count_cons, List.count_cons]
  simp only [hrec.1, hrec.2, hlen]
  constructor
  · simp
  · simp


/-- Inserting an in-bounds entry preserves the map bounds. -/
theorem rlInsert_inv (cfg : RateLimiterConfig) (st : RLState) (ip : String)
    (e : rateLimiterEntry) (hinv : mapInv cfg st)
    (he : 0 ≤ e.tokens ∧ e.tokens ≤ cfg.burstSize) :
    mapInv cfg (rlInsert st ip e) := by
  intro p hp
  simp only [rlInsert] at hp
  rcases List.mem_cons.mp hp with hp | hp
  · subst hp
    exact he
  · exact hinv p (List.mem_filter.mp hp).1

/-- C10 (confirmed): with a nonnegative burst size, one allow call
preserves `0 ≤ tokens ≤ burstSize` for every entry (entries are created
at `burstSize`, refills cap at `burstSize`, and a token is taken only
when strictly positive), and the first call for a fresh key is allowed
whenever `burstSize ≥ 1`. -/
theorem tokenBucket_invariant (cfg : RateLimiterConfig) (st : RLState)
    (ip : String) (now : Nat)
    (hburst : 0 ≤ cfg.burstSize) (hinv : mapInv cfg st) :
    mapInv cfg (RateLimiter.allow cfg st ip now).2 ∧
    (rlFind st ip = none → 1 ≤ cfg.burstSize →
      (RateLimiter.allow cfg st ip now).1 = true) := by
  rcases hfind : rlFind st ip with _ | e
  · constructor
    · unfold RateLimiter.allow
      simp only [hfind]
      split_ifs with hadd htok htok
      all_goals
        apply rlInsert_inv cfg st ip _ hinv
        simp_all
        try omega
    · intro _ h1
      have hzero : refillTokens 0 cfg.requestsPerMinute = 0 := by
        simp [refillTokens]
      unfold RateLimiter.allow
      simp only [hfind, Int.sub_self, hzero, lt_self_iff_false, if_false]
      rw [if_pos (show (0 : Int) < cfg.burstSize by omega)]
  · have hmem : (ip, e) ∈ st := by
      simp only [rlFind, Option.map_eq_some'] at hfind
      rcases hfind with ⟨p, hp, hpe⟩
      have hmem := List.mem_of_find?_eq_some hp
      have hkey := List.find?_some hp
      simp at hkey
      rcases p with ⟨k, v⟩
      simp at hkey hpe
      subst hkey
      subst hpe
      exact hmem
    have he := hinv (ip, e) hmem
    constructor
    · unfold RateLimiter.allow
      simp only [hfind]
      split_ifs with hadd htok htok
      all_goals
        apply rlInsert_inv cfg st ip _ hinv
        simp_all
        try omega
    · intro hnone
      cases hnone

/-- Witness for C6: 70 calls at concrete instants inside one second. -/
theorem tokenBucket_burst_70_witness :
    (RateLimiter.run ⟨60, 10⟩ [] "9.9.9.9"
      (0 :: List.replicate 69 5)).1.count true = 10 ∧
    (RateLimiter.run ⟨60, 10⟩ [] "9.9.9.9"
      (0 :: List.replicate 69 5)).1.count false = 60 :=
  tokenBucket_burst_70 "9.9.9.9" 0 (List.replicate 69 5) (by simp)
    (by
      intro t ht
      simp [List.mem_replicate] at ht
      omega)

/-- Witness for C10: a concrete first call on a fresh key keeps the
bounds and is allowed. -/
theorem tokenBucket_invariant_witness :
    mapInv ⟨60, 10⟩ (RateLimiter.allow ⟨60, 10⟩ [] "7.7.7.7" 0).2 ∧
    (RateLimiter.allow ⟨60, 10⟩ [] "7.7.7.7" 0).1 = true := by
  have h := tokenBucket_invariant ⟨60, 10⟩ [] "7.7.7.7" 0 (by norm_num)
    (by
      intro p hp
      cases hp)
  exact ⟨h.1, h.2 rfl (by norm_num)⟩

/-- C8 (confirmed): the once-per-process strategy selection probes the
configured backend with a trial set/get/delete cycle and picks the
distributed strategy exactly when the set succeeds and the get returns
precisely the value written; with the null backend (whose set succeeds
but whose get misses) it picks the in-memory strategy, while the live
Redis backend always probes as distributed; the sync.Once memoization
runs the probe only on the first call — with a recorded strategy the call
returns it and leaves the backend untouched. -/
theorem strategy_selection_protocol :
    (∀ (σ : Type) (pc : ProbeCache σ) (st : σ),
      (selectStrategy pc st).1 = .redisBacked ↔
        (pc.set st "ratelimit:init:test" "test" 1000000000).1 = none ∧
        (pc.get (pc.set st "ratelimit:init:test" "test" 1000000000).2
          "ratelimit:init:test").1 = .ok "test") ∧
    (selectStrategy noOpProbeCache () = (.inMemory, ())) ∧
    (∀ st : RedisState, (selectStrategy redisProbeCache st).1 = .redisBacked) ∧
    (∀ (σ : Type) (pc : ProbeCache σ) (st : σ),
      ensureStrategy pc none st =
        ((selectStrategy pc st).1, some (selectStrategy pc st).1,
          (selectStrategy pc st).2)) ∧
    (∀ (σ : Type) (pc : ProbeCache σ) (s : Strategy) (st : σ),
      ensureStrategy pc (some s) st = (s, some s, st)) := by
  refine ⟨?_, rfl, ?_, ?_, fun σ pc s st => rfl⟩
  · intro σ pc st
    unfold selectStrategy
    rcases hset : pc.set st "ratelimit:init:test" "test" 1000000000 with ⟨err, st1⟩
    cases err with
    | some e => simp [hset]
    | none =>
      rcases hget : pc.get st1 "ratelimit:init:test" with ⟨r, st2⟩
      cases r with
      | error e => simp [hset, hget]
      | ok v =>
        by_cases hv : v = "test"
        · subst hv
          simp [hset, hget]
        · simp [hset, hget, hv]
  · intro st
    unfold selectStrategy
    simp [redisProbeCache, redisCache.Set, redisCache.Get, rlookup_rstore_self,
      rvalText]
  · intro σ pc st
    unfold ensureStrategy
    rcases h : selectStrategy pc st with ⟨s, st'⟩
    simp [h]
